import Mathlib

/-!
Verification of the NodeModal editing logic of a JSON visualization tool
(file src/features/modals/NodeModal/index.tsx).

The development embeds the four core functions of that file — normalizeNodeData,
parseEditedContent, updateJsonWithNodeValue and parseValueByType — together with
the save handler, over an explicit JSON value type. JavaScript semantics that the
code relies on are made explicit:

* JSON values are a mutual inductive (null, booleans, numbers, strings, arrays,
  objects). Numbers are modeled as integers; floating-point behaviour is out of
  scope of this development, and NaN (which JSON.stringify renders as null) is
  folded to null at the point where Number() would produce it.
* property reads and writes follow strict-mode JavaScript: reading from
  undefined or null throws, reading a missing property yields undefined,
  writing to a primitive throws, writing past the end of an array extends it
  (holes print as null through JSON.stringify), and typeof x === "object"
  holds for null, arrays and plain objects alike.
* object spread and assignment preserve insertion order; the JavaScript
  reordering of integer-like keys ahead of string keys is not modeled, and all
  properties proved below are stated per key (order-free) so that this does not
  matter observationally.
* the host JSON.parse / JSON.stringify pair is modeled by an executable lexer,
  token parser and pretty printer covering the JSON fragment the code
  manipulates (integer numerals; common string escapes).
-/

mutual
inductive JSON where
  | null
  | bool (b : Bool)
  | num (n : Int)
  | str (s : String)
  | arr (elems : JArr)
  | obj (fields : JObj)
  deriving DecidableEq
inductive JArr where
  | nil
  | cons (hd : JSON) (tl : JArr)
  deriving DecidableEq
inductive JObj where
  | nil
  | cons (k : String) (v : JSON) (tl : JObj)
  deriving DecidableEq
end

deriving instance DecidableEq for Except

/-- Lookup of an own property, first match (JavaScript objects have unique keys,
so the fields lists built below never hold duplicates along the code paths). -/
def JObj.lookup : JObj → String → Option JSON
  | .nil, _ => none
  | .cons k v t, key => if k = key then some v else JObj.lookup t key

/-- Property assignment: overwrite in place when the key exists (JavaScript
keeps the original insertion position), otherwise append. -/
def JObj.set : JObj → String → JSON → JObj
  | .nil, key, val => .cons key val .nil
  | .cons k v t, key, val =>
    if k = key then .cons k val t else .cons k v (JObj.set t key val)

def JObj.toList : JObj → List (String × JSON)
  | .nil => []
  | .cons k v t => (k, v) :: JObj.toList t

def JObj.keys : JObj → List String
  | .nil => []
  | .cons k _ t => k :: JObj.keys t

def JObj.ofList : List (String × JSON) → JObj
  | [] => .nil
  | (k, v) :: t => .cons k v (JObj.ofList t)

def JArr.get? : JArr → Nat → Option JSON
  | .nil, _ => none
  | .cons x _, 0 => some x
  | .cons _ t, n + 1 => JArr.get? t n

/-- Array element assignment, extending with nulls past the end: a JavaScript
write past the bounds leaves holes, and JSON.stringify prints holes as null. -/
def JArr.setExtend : JArr → Nat → JSON → JArr
  | .nil, 0, v => .cons v .nil
  | .nil, n + 1, v => .cons .null (JArr.setExtend .nil n v)
  | .cons _ t, 0, v => .cons v t
  | .cons x t, n + 1, v => .cons x (JArr.setExtend t n v)

def JArr.toList : JArr → List JSON
  | .nil => []
  | .cons x t => x :: JArr.toList t

def JArr.ofList : List JSON → JArr
  | [] => .nil
  | x :: t => .cons x (JArr.ofList t)

/-- Fields produced by spreading an array into an object: indices become
string keys, in order. -/
def JArr.indexFieldsFrom : JArr → Nat → JObj
  | .nil, _ => .nil
  | .cons x t, i => .cons (toString i) x (JArr.indexFieldsFrom t (i + 1))

/-- Fields produced by spreading a string into an object (index to character). -/
def strIndexFieldsFrom : List Char → Nat → JObj
  | [], _ => .nil
  | c :: cs, i => .cons (toString i) (JSON.str c.toString) (strIndexFieldsFrom cs (i + 1))

def JSON.isContainer : JSON → Bool
  | .arr _ => true
  | .obj _ => true
  | _ => false

/-- The JavaScript test typeof x === "object": true for null, arrays and
objects. -/
def jsTypeofObject : JSON → Bool
  | .null => true
  | .arr _ => true
  | .obj _ => true
  | _ => false

/-- JavaScript truthiness of a JSON value (NaN does not occur in the model). -/
def jsTruthy : JSON → Bool
  | .null => false
  | .bool b => b
  | .num n => n != 0
  | .str s => s != ""
  | .arr _ => true
  | .obj _ => true

/-- A path segment: an object key (string) or an array index (number).
Node paths in the graph carry non-negative indices. -/
inductive Seg where
  | key (s : String)
  | idx (n : Nat)
  deriving DecidableEq

/-- One row of a selected node: a flattened key/value/kind-tag triple.
The key is absent (undefined) for the single row of a scalar node. -/
structure NodeRow where
  key : Option String := none
  value : JSON
  type : String
  deriving DecidableEq

/-- JavaScript truthiness of row.key: undefined and the empty string are falsy. -/
def keyTruthy : Option String → Bool
  | none => false
  | some s => s != ""

/-- The guard newValue.length === 1 && !newValue[0].key used by the patcher
and (in the equivalent form !originalRows[0]?.key && originalRows.length === 1)
by the content parser. -/
def isSingleUnkeyed : List NodeRow → Bool
  | [r] => !keyTruthy r.key
  | _ => false

def digitVal? (c : Char) : Option Nat :=
  if 48 ≤ c.toNat && c.toNat ≤ 57 then some (c.toNat - 48) else none

def natOfDigitsAux : List Char → Nat → Option Nat
  | [], acc => some acc
  | c :: cs, acc =>
    match digitVal? c with
    | some d => natOfDigitsAux cs (acc * 10 + d)
    | none => none

def natOfDigits? : List Char → Option Nat
  | [] => none
  | cs => natOfDigitsAux cs 0

/-- Canonical array-index strings: digit strings without a leading zero
(except "0" itself), as used by JavaScript for array element access. -/
def arrayIndex? (s : String) : Option Nat :=
  match s.data with
  | [] => none
  | c :: cs => if c = '0' && cs ≠ [] then none else natOfDigits? (c :: cs)

def isWsChar (c : Char) : Bool :=
  c = ' ' || c = '\t' || c = '\n' || c = '\r'

def trimWs (cs : List Char) : List Char :=
  ((cs.dropWhile isWsChar).reverse.dropWhile isWsChar).reverse

/-- Number(s) for a string argument, restricted to the integer numerals this
development models: optional sign and decimal digits after trimming
whitespace; the empty string converts to 0. Other strings give NaN, which is
folded to null here, the value JSON.stringify renders NaN as. -/
def jsStrToNumber (s : String) : JSON :=
  match trimWs s.data with
  | [] => .num 0
  | '-' :: cs =>
    match natOfDigits? cs with
    | some n => .num (-(n : Int))
    | none => .null
  | '+' :: cs =>
    match natOfDigits? cs with
    | some n => .num (n : Int)
    | none => .null
  | cs =>
    match natOfDigits? cs with
    | some n => .num (n : Int)
    | none => .null

/-- The host Number() conversion on JSON values. The nonempty array and
object cases produce NaN, folded to null (Number of a one-element array of a
numeral actually converts in JavaScript; that corner is outside the model and
outside every code path proved about below). -/
def jsNumber : JSON → JSON
  | .num n => .num n
  | .bool b => .num (if b then 1 else 0)
  | .null => .num 0
  | .str s => jsStrToNumber s
  | .arr .nil => .num 0
  | .arr _ => .null
  | .obj _ => .null

/-- Type coercion, source lines 130-136: null first, then the boolean strict
comparisons, then Number(), and pass-through for object, array and everything
else. -/
def parseValueByType (value : JSON) (ty : String) : JSON :=
  if value == JSON.null || value == JSON.str "null" then JSON.null
  else if ty = "boolean" then
    JSON.bool (value == JSON.bool true || value == JSON.str "true" || value == JSON.str "1")
  else if ty = "number" then jsNumber value
  else if ty = "object" || ty = "array" then value
  else value

/-- One property read, current[seg]: throws on undefined and null, yields
undefined on a primitive (string index and length properties are not modeled;
node paths never address into strings), and looks up the own property on a
container. Object access with a numeric segment goes through the string key. -/
def jsGetStep : Option JSON → Seg → Except String (Option JSON)
  | none, _ => .error "TypeError: cannot read properties of undefined"
  | some .null, _ => .error "TypeError: cannot read properties of null"
  | some (.bool _), _ => .ok none
  | some (.num _), _ => .ok none
  | some (.str _), _ => .ok none
  | some (.arr a), .idx i => .ok (a.get? i)
  | some (.arr a), .key s =>
    .ok (match arrayIndex? s with
      | some i => a.get? i
      | none => none)
  | some (.obj fs), .key s => .ok (fs.lookup s)
  | some (.obj fs), .idx i => .ok (fs.lookup (toString i))

/-- Assignment into a container value. A non-index string property written on
an array is invisible to JSON.stringify, hence modeled as leaving the array
unchanged. The primitive fallthrough is unreachable from jsSet. -/
def setIn : JSON → Seg → JSON → JSON
  | .obj fs, .key s, v => .obj (fs.set s v)
  | .obj fs, .idx i, v => .obj (fs.set (toString i) v)
  | .arr a, .idx i, v => .arr (a.setExtend i v)
  | .arr a, .key s, v =>
    match arrayIndex? s with
    | some i => .arr (a.setExtend i v)
    | none => .arr a
  | x, _, _ => x

/-- One property write, current[seg] = v, under strict-mode JavaScript:
throws on undefined, null and primitives, succeeds on containers. -/
def jsSet : Option JSON → Seg → JSON → Except String JSON
  | none, _, _ => .error "TypeError: cannot set properties of undefined"
  | some .null, _, _ => .error "TypeError: cannot set properties of null"
  | some (.bool _), _, _ => .error "TypeError: cannot create property on a boolean"
  | some (.num _), _, _ => .error "TypeError: cannot create property on a number"
  | some (.str _), _, _ => .error "TypeError: cannot create property on a string"
  | some (.arr a), s, v => .ok (setIn (.arr a) s v)
  | some (.obj fs), s, v => .ok (setIn (.obj fs) s v)

/-- Walking a document along a path by repeated property reads, the loop
current = current[path[i]] of the source. -/
def jsResolve : Option JSON → List Seg → Except String (Option JSON)
  | cur, [] => .ok cur
  | cur, s :: rest =>
    match jsGetStep cur s with
    | .error e => .error e
    | .ok child => jsResolve child rest

/-- Navigation to the parent of the last path segment followed by a final
action there, the structure of the non-root branch of the patcher: the loop
runs over path[0..len-2] and the action mutates parent[lastKey]. The
functional reading rebuilds the spine on the way out. The empty-path case is
unreachable (the caller branches to the root case first). -/
def navUpdate : Option JSON → List Seg → (Option JSON → Seg → Except String JSON) →
    Except String JSON
  | _, [], _ => .error "TypeError: empty path"
  | cur, [last], fin => fin cur last
  | cur, s :: s2 :: rest, fin =>
    match jsGetStep cur s with
    | .error e => .error e
    | .ok child =>
      match navUpdate child (s2 :: rest) fin with
      | .error e => .error e
      | .ok sub => jsSet cur s sub

/-- The merge loop newValue.forEach(row => { if (row.key) obj[row.key] = parseValueByType(row.value, row.type) }). -/
def mergeRows : JObj → List NodeRow → JObj
  | acc, [] => acc
  | acc, r :: rest =>
    mergeRows
      (match r.key with
        | some k => if k != "" then acc.set k (parseValueByType r.value r.type) else acc
        | none => acc)
      rest

/-- Own enumerable fields seen by an object spread. -/
def spreadFields : JSON → JObj
  | .obj fs => fs
  | .arr a => a.indexFieldsFrom 0
  | .str s => strIndexFieldsFrom s.data 0
  | _ => .nil

/-- The root-edit base, parsed && typeof parsed === "object" ? parsed : empty. -/
def rootBase (parsed : JSON) : JSON :=
  if jsTruthy parsed && jsTypeofObject parsed then parsed else JSON.obj .nil

/-- The non-root merge base, existing && typeof existing === "object" spread
into a fresh object, else an empty object (an undefined existing value is
falsy). -/
def mergeBase : Option JSON → JObj
  | some x => if jsTruthy x && jsTypeofObject x then spreadFields x else JObj.nil
  | none => JObj.nil

def headRowValue : List NodeRow → JSON
  | [] => JSON.null
  | r :: _ => r.value

def headRowType : List NodeRow → String
  | [] => ""
  | r :: _ => r.type

/-- Final navigation action for the single-value update of source line 111,
current[lastKey] = parseValueByType(newValue[0].value, newValue[0].type). -/
def finSingle (v : JSON) (ty : String) (cur : Option JSON) (last : Seg) :
    Except String JSON :=
  jsSet cur last (parseValueByType v ty)

/-- Final navigation action for the object merge of source lines 114-119:
read current[lastKey], spread it when it is a truthy object, merge the keyed
rows over it, write the merged object back. -/
def finKeyed (rows : List NodeRow) (cur : Option JSON) (last : Seg) :
    Except String JSON :=
  match jsGetStep cur last with
  | .error e => .error e
  | .ok existing => jsSet cur last (JSON.obj (mergeRows (mergeBase existing) rows))

/-- Document patcher on the parsed document, source lines 87-122: the root
branch replaces the document by the single unkeyed value or merges the keyed
rows over the spread of the existing root; the non-root branch navigates to
the parent and overwrites or merges at the last segment. -/
def updateJsonCore (parsed : JSON) (path : List Seg) (newValue : List NodeRow) :
    Except String JSON :=
  match path with
  | [] =>
    if isSingleUnkeyed newValue then .ok (headRowValue newValue)
    else .ok (JSON.obj (mergeRows (spreadFields (rootBase parsed)) newValue))
  | _ :: _ =>
    if isSingleUnkeyed newValue then
      navUpdate (some parsed) path (finSingle (headRowValue newValue) (headRowType newValue))
    else
      navUpdate (some parsed) path (finKeyed newValue)

/-- Tokens of the JSON lexer modeling the host JSON.parse. -/
inductive Tok where
  | lbraceT
  | rbraceT
  | lbrackT
  | rbrackT
  | colonT
  | commaT
  | strT (s : String)
  | numT (n : Int)
  | trueT
  | falseT
  | nullT
  deriving DecidableEq

def lbraceCh : Char := Char.ofNat 123

def rbraceCh : Char := Char.ofNat 125

def delimTok? (c : Char) : Option Tok :=
  if c = lbraceCh then some .lbraceT
  else if c = rbraceCh then some .rbraceT
  else if c = '[' then some .lbrackT
  else if c = ']' then some .rbrackT
  else if c = ':' then some .colonT
  else if c = ',' then some .commaT
  else none

/-- Bare literal classification: the three keywords and integer numerals (the
model of JSON numbers; fractional and exponent literals are outside the
model and are rejected). -/
def classifyLit (cs : List Char) : Option Tok :=
  if cs = "true".data then some .trueT
  else if cs = "false".data then some .falseT
  else if cs = "null".data then some .nullT
  else
    match cs with
    | '-' :: ds => (natOfDigits? ds).map fun n => Tok.numT (-(n : Int))
    | ds => (natOfDigits? ds).map fun n => Tok.numT (n : Int)

/-- String escapes understood by the lexer (unicode escapes are outside the
model). -/
def escChar? (c : Char) : Option Char :=
  if c = '"' then some '"'
  else if c = '\\' then some '\\'
  else if c = '/' then some '/'
  else if c = 'n' then some '\n'
  else if c = 't' then some '\t'
  else if c = 'r' then some '\r'
  else if c = 'b' then some (Char.ofNat 8)
  else if c = 'f' then some (Char.ofNat 12)
  else none

inductive LexMode where
  | normal
  | inStr (esc : Bool) (acc : List Char)
  | inLit (acc : List Char)
  | failed

structure LexState where
  mode : LexMode
  toks : List Tok

def lexNormalStep (toks : List Tok) (c : Char) : LexState :=
  if c = '"' then { mode := .inStr false [], toks := toks }
  else
    match delimTok? c with
    | some t => { mode := .normal, toks := t :: toks }
    | none =>
      if isWsChar c then { mode := .normal, toks := toks }
      else { mode := .inLit [c], toks := toks }

def lexStep (st : LexState) (c : Char) : LexState :=
  match st.mode with
  | .failed => st
  | .normal => lexNormalStep st.toks c
  | .inStr esc acc =>
    if esc then
      match escChar? c with
      | some e => { st with mode := .inStr false (e :: acc) }
      | none => { st with mode := .failed }
    else if c = '\\' then { st with mode := .inStr true acc }
    else if c = '"' then
      { mode := .normal, toks := Tok.strT (String.mk acc.reverse) :: st.toks }
    else { st with mode := .inStr false (c :: acc) }
  | .inLit acc =>
    if isWsChar c || (delimTok? c).isSome || c = '"' then
      match classifyLit acc.reverse with
      | some t => lexNormalStep (t :: st.toks) c
      | none => { st with mode := .failed }
    else { st with mode := .inLit (c :: acc) }

def lexJSON (cs : List Char) : Option (List Tok) :=
  let st := cs.foldl lexStep { mode := .normal, toks := [] }
  match st.mode with
  | .normal => some st.toks.reverse
  | .inLit acc =>
    match classifyLit acc.reverse with
    | some t => some (t :: st.toks).reverse
    | none => none
  | _ => none

inductive OPhase where
  | keyOrEnd
  | colonAfter (k : String)
  | valFor (k : String)
  | commaOrEnd

inductive PFrame where
  | arrF (acc : List JSON) (expectComma : Bool)
  | objF (acc : List (String × JSON)) (phase : OPhase)

structure PStateJ where
  stack : List PFrame
  result : Option JSON
  dead : Bool

/-- Completion of a value in the token parser: deposit it into the enclosing
frame, or as the top-level result when the stack is empty (a second top-level
value is trailing garbage). -/
def pushValue (st : PStateJ) (v : JSON) : PStateJ :=
  match st.stack with
  | [] =>
    if st.result.isSome then { st with dead := true }
    else { st with result := some v }
  | .arrF acc false :: rest =>
    { st with stack := .arrF (v :: acc) true :: rest }
  | .arrF _ true :: _ => { st with dead := true }
  | .objF acc (.valFor k) :: rest =>
    { st with stack := .objF ((k, v) :: acc) .commaOrEnd :: rest }
  | .objF _ _ :: _ => { st with dead := true }

/-- A container may open exactly where a value may be deposited. -/
def canStartValue (st : PStateJ) : Bool :=
  match st.stack with
  | [] => st.result.isNone
  | .arrF _ ec :: _ => !ec
  | .objF _ (.valFor _) :: _ => true
  | .objF _ _ :: _ => false

def parseTokStep (st : PStateJ) (t : Tok) : PStateJ :=
  if st.dead then st
  else
    match t with
    | .lbraceT =>
      if canStartValue st then { st with stack := .objF [] .keyOrEnd :: st.stack }
      else { st with dead := true }
    | .lbrackT =>
      if canStartValue st then { st with stack := .arrF [] false :: st.stack }
      else { st with dead := true }
    | .rbrackT =>
      match st.stack with
      | .arrF acc ec :: rest =>
        if acc.isEmpty || ec then
          pushValue { st with stack := rest } (JSON.arr (JArr.ofList acc.reverse))
        else { st with dead := true }
      | _ => { st with dead := true }
    | .rbraceT =>
      match st.stack with
      | .objF acc .keyOrEnd :: rest =>
        if acc.isEmpty then
          pushValue { st with stack := rest } (JSON.obj (JObj.ofList acc.reverse))
        else { st with dead := true }
      | .objF acc .commaOrEnd :: rest =>
        pushValue { st with stack := rest } (JSON.obj (JObj.ofList acc.reverse))
      | _ => { st with dead := true }
    | .colonT =>
      match st.stack with
      | .objF acc (.colonAfter k) :: rest =>
        { st with stack := .objF acc (.valFor k) :: rest }
      | _ => { st with dead := true }
    | .commaT =>
      match st.stack with
      | .arrF acc true :: rest => { st with stack := .arrF acc false :: rest }
      | .objF acc .commaOrEnd :: rest =>
        { st with stack := .objF acc .keyOrEnd :: rest }
      | _ => { st with dead := true }
    | .strT s =>
      match st.stack with
      | .objF acc .keyOrEnd :: rest =>
        { st with stack := .objF acc (.colonAfter s) :: rest }
      | _ => pushValue st (JSON.str s)
    | .numT n => pushValue st (JSON.num n)
    | .trueT => pushValue st (JSON.bool true)
    | .falseT => pushValue st (JSON.bool false)
    | .nullT => pushValue st (JSON.null)

def runParseToks (toks : List Tok) : Option JSON :=
  let st := toks.foldl parseTokStep { stack := [], result := none, dead := false }
  if st.dead then none
  else
    match st.stack, st.result with
    | [], some v => some v
    | _, _ => none

/-- The host JSON.parse, over the JSON fragment this development models:
fails exactly when the lexer or the token parser rejects. -/
def jsonParse (s : String) : Option JSON :=
  match lexJSON s.data with
  | none => none
  | some toks => runParseToks toks

def spaces (n : Nat) : String := String.mk (List.replicate n ' ')

def hexDigitCh (n : Nat) : Char :=
  Char.ofNat (if n < 10 then 48 + n else 87 + n)

def escChunk (c : Char) : String :=
  if c = '"' then "\\\""
  else if c = '\\' then "\\\\"
  else if c = '\n' then "\\n"
  else if c = '\t' then "\\t"
  else if c = '\r' then "\\r"
  else if c.toNat < 32 then
    "\\u00" ++ String.mk [hexDigitCh (c.toNat / 16), hexDigitCh (c.toNat % 16)]
  else c.toString

def quoteStr (s : String) : String :=
  "\"" ++ String.join (s.data.map escChunk) ++ "\""

mutual
/-- The host JSON.stringify(v, null, 2): pretty printing with two-space
indentation, the serialization the patcher and the normalizer emit. -/
def stringifyAt : Nat → JSON → String
  | _, .null => "null"
  | _, .bool b => if b then "true" else "false"
  | _, .num n => toString n
  | _, .str s => quoteStr s
  | _, .arr .nil => "[]"
  | i, .arr a => "[\n" ++ stringifyArr (i + 2) a ++ "\n" ++ spaces i ++ "]"
  | _, .obj .nil => "\x7b\x7d"
  | i, .obj fs => "\x7b\n" ++ stringifyFields (i + 2) fs ++ "\n" ++ spaces i ++ "\x7d"
def stringifyArr : Nat → JArr → String
  | _, .nil => ""
  | i, .cons x .nil => spaces i ++ stringifyAt i x
  | i, .cons x t => spaces i ++ stringifyAt i x ++ ",\n" ++ stringifyArr i t
def stringifyFields : Nat → JObj → String
  | _, .nil => ""
  | i, .cons k v .nil => spaces i ++ quoteStr k ++ ": " ++ stringifyAt i v
  | i, .cons k v t =>
    spaces i ++ quoteStr k ++ ": " ++ stringifyAt i v ++ ",\n" ++ stringifyFields i t
end

def jsonStringify (v : JSON) : String := stringifyAt 0 v

mutual
/-- JavaScript template-string conversion of a value, the backtick
interpolation at source line 25: String(v). Arrays join their elements with
commas, rendering null elements empty; objects print as the object tag. -/
def jsToString : JSON → String
  | .null => "null"
  | .bool b => if b then "true" else "false"
  | .num n => toString n
  | .str s => s
  | .arr a => jsArrToString a
  | .obj _ => "[object Object]"
def jsArrToString : JArr → String
  | .nil => ""
  | .cons x .nil => (match x with | .null => "" | y => jsToString y)
  | .cons x t => (match x with | .null => "" | y => jsToString y) ++ "," ++ jsArrToString t
end

/-- The forEach of normalizeNodeData, source lines 28-32: keep keyed rows
whose kind tag is neither array nor object. -/
def buildNormObj : JObj → List NodeRow → JObj
  | acc, [] => acc
  | acc, r :: rest =>
    buildNormObj
      (if r.type != "array" && r.type != "object" then
        match r.key with
        | some k => if k != "" then acc.set k r.value else acc
        | none => acc
      else acc)
      rest

/-- Value normalizer, source lines 23-34: canonical empty object text for no
rows, bare template text for a single unkeyed row, otherwise the pretty
serialization of the scalar-tagged keyed rows. -/
def normalizeNodeData (nodeRows : List NodeRow) : String :=
  match nodeRows with
  | [] => "\x7b\x7d"
  | rows =>
    if isSingleUnkeyed rows then jsToString (headRowValue rows)
    else jsonStringify (JSON.obj (buildNormObj .nil rows))

def isArrV : JSON → Bool
  | .arr _ => true
  | _ => false

def isBoolV : JSON → Bool
  | .bool _ => true
  | _ => false

def isNumV : JSON → Bool
  | .num _ => true
  | _ => false

/-- Object.entries of a parsed value: throws on null, enumerates fields of
objects, indices of arrays and characters of strings, and is empty on the
remaining primitives. -/
def jsEntries : JSON → Option (List (String × JSON))
  | .null => none
  | .obj fs => some fs.toList
  | .arr a => some (a.indexFieldsFrom 0).toList
  | .str s => some (strIndexFieldsFrom s.data 0).toList
  | .num _ => some []
  | .bool _ => some []

/-- Kind-tag inference of the content parser, source lines 60-65: start from
the declared tag of the matching original row (an empty or missing tag falls
back to string), then override by the runtime shape for arrays, non-null
objects, booleans and numbers. -/
def inferTypeOf (original : Option NodeRow) (value : JSON) : String :=
  let base :=
    match original with
    | some r => if r.type = "" then "string" else r.type
    | none => "string"
  if isArrV value then "array"
  else if value != JSON.null && jsTypeofObject value then "object"
  else if isBoolV value then "boolean"
  else if isNumV value then "number"
  else base

/-- Content parser, source lines 44-76: parse the edited text, keep a single
unkeyed row verbatim around the parsed value, otherwise emit one row per
enumerable entry of the parsed value with the inferred kind tag. Any throw
inside the body (unparseable text, or Object.entries of null) is caught and
surfaces as the invalid-format error. -/
def parseEditedContent (content : String) (originalRows : List NodeRow) :
    Except String (List NodeRow) :=
  match jsonParse content with
  | none => .error "Invalid JSON format"
  | some parsed =>
    if isSingleUnkeyed originalRows then
      match originalRows with
      | r :: _ => .ok [{ r with value := parsed }]
      | [] => .ok []
    else
      match jsEntries parsed with
      | none => .error "Invalid JSON format"
      | some entries =>
        .ok (entries.map fun kv =>
          let original := originalRows.find? fun row => row.key == some kv.1
          { key := some kv.1, value := kv.2, type := inferTypeOf original kv.2 })

/-- Document patcher at the string boundary, source lines 79-127: parse the
stored document (a SyntaxError propagates through the rethrow), update at the
path and pretty-print the full updated document. -/
def updateJsonWithNodeValue (json : String) (path : List Seg) (newValue : List NodeRow) :
    Except String String :=
  match jsonParse json with
  | none => .error "SyntaxError: invalid JSON"
  | some parsed =>
    match updateJsonCore parsed path newValue with
    | .error e => .error e
    | .ok doc => .ok (jsonStringify doc)

/-- External stores touched by the save handler: the editable document store,
the raw contents mirror and the graph view rebuilt from document text. The
best-effort node re-selection lives in the graph store outside this
repository slice and changes none of these fields. -/
structure AppState where
  json : String
  contents : String
  graphJson : String
  deriving DecidableEq

/-- Save handler, source lines 174-204: parse the edited text, patch the
stored document, then write the new document to every store; any throw is
caught before the first store write, leaving the state untouched. -/
def handleSave (st : AppState) (editedContent : String) (nodePath : List Seg)
    (nodeRows : List NodeRow) : AppState :=
  match parseEditedContent editedContent nodeRows with
  | .error _ => st
  | .ok rows =>
    match updateJsonWithNodeValue st.json nodePath rows with
    | .error _ => st
    | .ok updated => { json := updated, contents := updated, graphJson := updated }

/-- Induction along the field spine of an object, the only recursion the
lemmas below need (the stock eliminator of the mutual inductive carries
motives for all three types). -/
@[induction_eliminator]
theorem JObj.fieldSpineInduction {motive : JObj → Prop} (nil : motive .nil)
    (cons : ∀ k v t, motive t → motive (.cons k v t)) : ∀ o : JObj, motive o
  | .nil => nil
  | .cons k v t => cons k v t (JObj.fieldSpineInduction nil cons t)

/-- Induction along the element spine of an array. -/
@[induction_eliminator]
theorem JArr.elemSpineInduction {motive : JArr → Prop} (nil : motive .nil)
    (cons : ∀ x t, motive t → motive (.cons x t)) : ∀ a : JArr, motive a
  | .nil => nil
  | .cons x t => cons x t (JArr.elemSpineInduction nil cons t)

theorem JObj.lookup_set_self (fs : JObj) (k : String) (v : JSON) :
    (fs.set k v).lookup k = some v := by
  induction fs with
  | nil => simp [JObj.set, JObj.lookup]
  | cons k0 v0 t ih =>
    by_cases h : k0 = k
    · simp [JObj.set, h, JObj.lookup]
    · simp [JObj.set, h, JObj.lookup, ih]

theorem JObj.lookup_set_ne (fs : JObj) (k key : String) (v : JSON) (h : k ≠ key) :
    (fs.set k v).lookup key = fs.lookup key := by
  induction fs with
  | nil => simp [JObj.set, JObj.lookup, fun hh => h hh]
  | cons k0 v0 t ih =>
    by_cases h0 : k0 = k
    · subst h0
      simp [JObj.set, JObj.lookup, h]
    · simp [JObj.set, h0, JObj.lookup, ih]

theorem JObj.set_fresh (fs : JObj) (k : String) (v : JSON) (h : fs.lookup k = none) :
    (fs.set k v).toList = fs.toList ++ [(k, v)] := by
  induction fs with
  | nil => simp [JObj.set, JObj.toList]
  | cons k0 v0 t ih =>
    by_cases h0 : k0 = k
    · simp [JObj.lookup, h0] at h
    · simp [JObj.lookup, h0] at h
      simp [JObj.set, h0, JObj.toList, ih h]

theorem JArr.get?_setExtend_self (i : Nat) (a : JArr) (v : JSON) :
    (a.setExtend i v).get? i = some v := by
  induction i generalizing a with
  | zero => cases a <;> simp [JArr.setExtend, JArr.get?]
  | succ n ih =>
    cases a with
    | nil =>
      simp only [JArr.setExtend, JArr.get?]
      exact ih .nil
    | cons x t =>
      simp only [JArr.setExtend, JArr.get?]
      exact ih t

theorem jsGetStep_some_container (d : JSON) (s : Seg) (e : JSON)
    (h : jsGetStep (some d) s = .ok (some e)) : d.isContainer = true := by
  cases d <;> simp_all [jsGetStep, JSON.isContainer]

theorem jsSet_container_eq (d : JSON) (s : Seg) (v : JSON) (h : d.isContainer = true) :
    jsSet (some d) s v = .ok (setIn d s v) := by
  cases d <;> simp_all [jsSet, JSON.isContainer]

theorem jsGetStep_setIn_self (d : JSON) (s : Seg) (e v : JSON)
    (h : jsGetStep (some d) s = .ok (some e)) :
    jsGetStep (some (setIn d s v)) s = .ok (some v) := by
  cases d with
  | null => simp [jsGetStep] at h
  | bool b => simp [jsGetStep] at h
  | num n => simp [jsGetStep] at h
  | str st => simp [jsGetStep] at h
  | obj fs =>
    cases s with
    | key k => simp [setIn, jsGetStep, JObj.lookup_set_self]
    | idx i => simp [setIn, jsGetStep, JObj.lookup_set_self]
  | arr a =>
    cases s with
    | idx i => simp [setIn, jsGetStep, JArr.get?_setExtend_self]
    | key k =>
      simp only [jsGetStep] at h
      cases hidx : arrayIndex? k with
      | none => rw [hidx] at h; simp at h
      | some i =>
        rw [hidx] at h
        simp [setIn, hidx, jsGetStep, JArr.get?_setExtend_self]

theorem jsResolve_none_ne_some (Q : List Seg) (c : JSON) :
    jsResolve none Q ≠ .ok (some c) := by
  cases Q with
  | nil => simp [jsResolve]
  | cons q rest => simp [jsResolve, jsGetStep]

/-- Container test lifted to a possibly-undefined value. -/
def contOpt : Option JSON → Bool
  | some d => d.isContainer
  | none => false

theorem finSingle_err (v : JSON) (ty : String) (cur : Option JSON) (s : Seg)
    (h : contOpt cur = false) : (finSingle v ty cur s).isOk = false := by
  cases cur with
  | none => simp [finSingle, jsSet, Except.isOk, Except.toBool]
  | some d => cases d <;> simp_all [finSingle, jsSet, Except.isOk, Except.toBool, contOpt, JSON.isContainer]

theorem finSingle_ok (v : JSON) (ty : String) (d : JSON) (s : Seg)
    (h : d.isContainer = true) : (finSingle v ty (some d) s).isOk = true := by
  rw [finSingle, jsSet_container_eq d s _ h]
  rfl

theorem finKeyed_err (rows : List NodeRow) (cur : Option JSON) (s : Seg)
    (h : contOpt cur = false) : (finKeyed rows cur s).isOk = false := by
  cases cur with
  | none => simp [finKeyed, jsGetStep, Except.isOk, Except.toBool]
  | some d =>
    cases d <;>
      simp_all [finKeyed, jsGetStep, jsSet, Except.isOk, Except.toBool, contOpt, JSON.isContainer]

theorem finKeyed_ok (rows : List NodeRow) (d : JSON) (s : Seg)
    (h : d.isContainer = true) : (finKeyed rows (some d) s).isOk = true := by
  cases d with
  | arr a =>
    cases s <;> simp [finKeyed, jsGetStep, jsSet, Except.isOk, Except.toBool]
  | obj fs =>
    cases s <;> simp [finKeyed, jsGetStep, jsSet, Except.isOk, Except.toBool]
  | null => simp [JSON.isContainer] at h
  | bool b => simp [JSON.isContainer] at h
  | num n => simp [JSON.isContainer] at h
  | str st => simp [JSON.isContainer] at h

theorem contOpt_some (d : JSON) : contOpt (some d) = d.isContainer := rfl

/-- Success of the non-root patch is equivalent to the parent location (the
path with its last segment dropped) resolving to a container: a missing or
out-of-bounds final segment never fails by itself. -/
theorem navUpdate_isOk_iff (fin : Option JSON → Seg → Except String JSON)
    (hferr : ∀ cur s, contOpt cur = false → (fin cur s).isOk = false)
    (hfok : ∀ d s, JSON.isContainer d = true → (fin (some d) s).isOk = true) :
    ∀ (path : List Seg) (cur : Option JSON), path ≠ [] →
      ((navUpdate cur path fin).isOk = true ↔
        ∃ c, jsResolve cur path.dropLast = .ok (some c) ∧ c.isContainer = true) := by
  intro path
  induction path with
  | nil => intro cur h; exact absurd rfl h
  | cons s rest ih =>
    intro cur _
    cases rest with
    | nil =>
      cases cur with
      | none =>
        simp only [navUpdate, List.dropLast, jsResolve]
        rw [hferr none s rfl]
        simp
      | some d =>
        by_cases hd : d.isContainer = true
        · simp only [navUpdate, List.dropLast, jsResolve]
          rw [hfok d s hd]
          simp [hd]
        · have hd2 : contOpt (some d) = false := by
            rw [contOpt_some]
            exact Bool.not_eq_true _ ▸ by simpa using hd
          simp only [navUpdate, List.dropLast, jsResolve]
          rw [hferr (some d) s hd2]
          simp [hd]
    | cons s2 r2 =>
      have hdl : (s :: s2 :: r2).dropLast = s :: (s2 :: r2).dropLast := rfl
      rw [hdl]
      cases hstep : jsGetStep cur s with
      | error e =>
        simp only [navUpdate, jsResolve, hstep]
        simp [Except.isOk, Except.toBool]
      | ok child =>
        simp only [navUpdate, jsResolve, hstep]
        have ihc := ih child (by simp)
        cases hnav : navUpdate child (s2 :: r2) fin with
        | error e =>
          rw [hnav] at ihc
          simp only [Except.isOk, Except.toBool] at ihc
          constructor
          · intro h
            simp [Except.isOk, Except.toBool] at h
          · intro h
            exact absurd (ihc.mpr h) (by simp)
        | ok sub =>
          rw [hnav] at ihc
          have hex : ∃ c, jsResolve child (s2 :: r2).dropLast = .ok (some c) ∧
              c.isContainer = true := ihc.mp rfl
          obtain ⟨c, hres, hc⟩ := hex
          cases child with
          | none => exact absurd hres (jsResolve_none_ne_some _ _)
          | some e =>
            cases cur with
            | none => simp [jsGetStep] at hstep
            | some d =>
              have hcont := jsGetStep_some_container d s e hstep
              show (jsSet (some d) s sub).isOk = true ↔ _
              rw [jsSet_container_eq d s sub hcont]
              constructor
              · intro _
                exact ⟨c, hres, hc⟩
              · intro _
                rfl

/-- Patching at a path that resolves to an existing value succeeds and makes
the path resolve to exactly the value the final action writes there. -/
theorem navUpdate_resolve_setIn (fin : Option JSON → Seg → Except String JSON)
    (w newv : JSON)
    (hfin : ∀ d s, d.isContainer = true → jsGetStep (some d) s = .ok (some w) →
      fin (some d) s = .ok (setIn d s newv)) :
    ∀ (path : List Seg) (cur : Option JSON), path ≠ [] →
      jsResolve cur path = .ok (some w) →
      ∃ root, navUpdate cur path fin = .ok root ∧
        jsResolve (some root) path = .ok (some newv) := by
  intro path
  induction path with
  | nil => intro cur h; exact absurd rfl h
  | cons s rest ih =>
    intro cur _ hres
    cases rest with
    | nil =>
      have hstep : jsGetStep cur s = .ok (some w) := by
        cases hstep : jsGetStep cur s with
        | error e => rw [jsResolve, hstep] at hres; simp at hres
        | ok child =>
          rw [jsResolve, hstep] at hres
          simp only [jsResolve] at hres
          rw [hres]
      cases cur with
      | none => simp [jsGetStep] at hstep
      | some d =>
        have hcont := jsGetStep_some_container d s w hstep
        refine ⟨setIn d s newv, ?_, ?_⟩
        · simp only [navUpdate]
          exact hfin d s hcont hstep
        · simp only [jsResolve]
          rw [jsGetStep_setIn_self d s w newv hstep]
    | cons s2 r2 =>
      cases hstep : jsGetStep cur s with
      | error e => rw [jsResolve, hstep] at hres; simp at hres
      | ok child =>
        rw [jsResolve] at hres
        simp only [hstep] at hres
        have hchild : ∃ e, child = some e := by
          cases child with
          | none => exact absurd hres (jsResolve_none_ne_some _ _)
          | some e => exact ⟨e, rfl⟩
        obtain ⟨e, rfl⟩ := hchild
        obtain ⟨sub, hnav, hres2⟩ := ih (some e) (by simp) hres
        cases cur with
        | none => simp [jsGetStep] at hstep
        | some d =>
          have hcont := jsGetStep_some_container d s e hstep
          refine ⟨setIn d s sub, ?_, ?_⟩
          · simp only [navUpdate]
            simp only [hstep, hnav]
            exact jsSet_container_eq d s sub hcont
          · simp only [jsResolve]
            rw [jsGetStep_setIn_self d s e sub hstep]
            exact hres2

/-- Contribution of a row to a merge: its key when JavaScript-truthy. -/
def rowKeyOf (r : NodeRow) : Option String :=
  match r.key with
  | some k => if k != "" then some k else none
  | none => none

/-- Keys a row set writes during a merge, in order. -/
def rowKeys (rows : List NodeRow) : List String := rows.filterMap rowKeyOf

theorem rowKeyOf_eq_some (r : NodeRow) (k : String) :
    rowKeyOf r = some k ↔ r.key = some k ∧ k ≠ "" := by
  cases hrk : r.key with
  | none => simp [rowKeyOf, hrk]
  | some kk =>
    by_cases h0 : kk = ""
    · subst h0
      simp [rowKeyOf, hrk]
      intro he
      exact he.symm
    · simp only [rowKeyOf, hrk]
      rw [if_pos (by simpa using h0)]
      constructor
      · intro h
        have : kk = k := by injection h
        exact ⟨by rw [this], this ▸ h0⟩
      · intro ⟨h1, _⟩
        have : kk = k := by injection h1
        rw [this]

theorem mergeRows_cons (base : JObj) (r : NodeRow) (rest : List NodeRow) :
    mergeRows base (r :: rest) =
      mergeRows
        (match rowKeyOf r with
          | some k => base.set k (parseValueByType r.value r.type)
          | none => base)
        rest := by
  cases hk : r.key with
  | none => simp [mergeRows, rowKeyOf, hk]
  | some k =>
    by_cases h0 : k = ""
    · simp [mergeRows, rowKeyOf, hk, h0]
    · simp [mergeRows, rowKeyOf, hk, h0]

theorem rowKeys_cons (r : NodeRow) (rest : List NodeRow) :
    rowKeys (r :: rest) =
      match rowKeyOf r with
      | some k => k :: rowKeys rest
      | none => rowKeys rest := by
  simp only [rowKeys, List.filterMap_cons]
  cases rowKeyOf r <;> simp

theorem mergeRows_lookup_not_mem :
    ∀ (rows : List NodeRow) (base : JObj) (k : String), k ∉ rowKeys rows →
      (mergeRows base rows).lookup k = base.lookup k := by
  intro rows
  induction rows with
  | nil => intro base k _; rfl
  | cons r rest ih =>
    intro base k h
    rw [mergeRows_cons]
    cases hk : rowKeyOf r with
    | none =>
      simp only [rowKeys_cons, hk] at h
      simp only [hk]
      exact ih base k h
    | some k0 =>
      simp only [rowKeys_cons, hk] at h
      have hne : k0 ≠ k := fun he => h (he ▸ List.mem_cons_self _ _)
      have hrest : k ∉ rowKeys rest := fun hm => h (List.mem_cons_of_mem _ hm)
      simp only [hk]
      rw [ih _ k hrest, JObj.lookup_set_ne _ _ _ _ hne]

theorem mergeRows_lookup_mem :
    ∀ (rows : List NodeRow) (base : JObj) (r : NodeRow) (k : String),
      r ∈ rows → r.key = some k → k ≠ "" → (rowKeys rows).Nodup →
      (mergeRows base rows).lookup k = some (parseValueByType r.value r.type) := by
  intro rows
  induction rows with
  | nil => intro base r k hm; cases hm
  | cons r0 rest ih =>
    intro base r k hm hk hne hnd
    rw [mergeRows_cons]
    rcases List.mem_cons.mp hm with he | hm2
    · subst he
      have hk0 : rowKeyOf r = some k := (rowKeyOf_eq_some r k).mpr ⟨hk, hne⟩
      simp only [hk0]
      simp only [rowKeys_cons, hk0] at hnd
      have hkn : k ∉ rowKeys rest := (List.nodup_cons.mp hnd).1
      rw [mergeRows_lookup_not_mem rest _ k hkn, JObj.lookup_set_self]
    · cases hk0 : rowKeyOf r0 with
      | none =>
        simp only [rowKeys_cons, hk0] at hnd
        simp only [hk0]
        exact ih base r k hm2 hk hne hnd
      | some k0 =>
        simp only [rowKeys_cons, hk0] at hnd
        simp only [hk0]
        exact ih _ r k hm2 hk hne (List.nodup_cons.mp hnd).2

theorem mergeRows_lookup_some :
    ∀ (rows : List NodeRow) (base : JObj) (k : String) (v : JSON),
      (mergeRows base rows).lookup k = some v →
      base.lookup k = some v ∨
        ∃ r ∈ rows, r.key = some k ∧ k ≠ "" ∧ v = parseValueByType r.value r.type := by
  intro rows
  induction rows with
  | nil => intro base k v h; exact Or.inl h
  | cons r0 rest ih =>
    intro base k v h
    rw [mergeRows_cons] at h
    cases hk0 : rowKeyOf r0 with
    | none =>
      simp only [hk0] at h
      rcases ih base k v h with h1 | ⟨r, hm, hkey, hne, hv⟩
      · exact Or.inl h1
      · exact Or.inr ⟨r, List.mem_cons_of_mem _ hm, hkey, hne, hv⟩
    | some k0 =>
      simp only [hk0] at h
      rcases ih _ k v h with h1 | ⟨r, hm, hkey, hne, hv⟩
      · by_cases hkk : k0 = k
        · subst hkk
          rw [JObj.lookup_set_self] at h1
          have hr0 := (rowKeyOf_eq_some r0 k0).mp hk0
          have hv0 : v = parseValueByType r0.value r0.type := by
            injection h1 with h1e
            exact h1e.symm
          exact Or.inr ⟨r0, List.mem_cons_self _ _, hr0.1, hr0.2, hv0⟩
        · rw [JObj.lookup_set_ne _ _ _ _ hkk] at h1
          exact Or.inl h1
      · exact Or.inr ⟨r, List.mem_cons_of_mem _ hm, hkey, hne, hv⟩

theorem rootBase_obj (fs : JObj) : rootBase (JSON.obj fs) = JSON.obj fs := rfl

theorem rootBase_noncontainer (D : JSON) (h : D.isContainer = false) :
    rootBase D = JSON.obj .nil := by
  cases D <;> simp_all [rootBase, jsTruthy, jsTypeofObject, JSON.isContainer]

theorem mergeBase_some_obj (fs : JObj) : mergeBase (some (JSON.obj fs)) = fs := rfl

theorem mergeBase_some_arr (a : JArr) :
    mergeBase (some (JSON.arr a)) = a.indexFieldsFrom 0 := rfl

theorem mergeBase_noncontainer (w : JSON) (h : w.isContainer = false) :
    mergeBase (some w) = JObj.nil := by
  cases w <;> simp_all [mergeBase, jsTruthy, jsTypeofObject, JSON.isContainer]

theorem find?_eq_head?_filter {α : Type} (p : α → Bool) :
    ∀ l : List α, l.find? p = (l.filter p).head? := by
  intro l
  induction l with
  | nil => rfl
  | cons a t ih =>
    by_cases h : p a = true
    · rw [List.find?_cons_of_pos t h, List.filter_cons_of_pos h]
      rfl
    · rw [List.find?_cons_of_neg t h, List.filter_cons_of_neg h]
      exact ih

theorem unique_of_nodup_keys :
    ∀ (l : List NodeRow), (l.filterMap NodeRow.key).Nodup →
      ∀ a ∈ l, ∀ b ∈ l, ∀ k : String, a.key = some k → b.key = some k → a = b := by
  intro l
  induction l with
  | nil => intro _ a ha; cases ha
  | cons r t ih =>
    intro hnd a ha b hb k hak hbk
    cases hrk : r.key with
    | none =>
      simp only [List.filterMap_cons, hrk] at hnd
      rcases List.mem_cons.mp ha with rfl | ha2
      · rw [hrk] at hak; cases hak
      · rcases List.mem_cons.mp hb with rfl | hb2
        · rw [hrk] at hbk; cases hbk
        · exact ih hnd a ha2 b hb2 k hak hbk
    | some kr =>
      simp only [List.filterMap_cons, hrk] at hnd
      have hnotin : kr ∉ t.filterMap NodeRow.key := (List.nodup_cons.mp hnd).1
      have hndt := (List.nodup_cons.mp hnd).2
      rcases List.mem_cons.mp ha with rfl | ha2
      · rcases List.mem_cons.mp hb with rfl | hb2
        · rfl
        · rw [hrk] at hak
          injection hak with hak
          subst hak
          exact absurd (List.mem_filterMap.mpr ⟨b, hb2, hbk⟩) hnotin
      · rcases List.mem_cons.mp hb with rfl | hb2
        · rw [hrk] at hbk
          injection hbk with hbk
          subst hbk
          exact absurd (List.mem_filterMap.mpr ⟨a, ha2, hak⟩) hnotin
        · exact ih hndt a ha2 b hb2 k hak hbk

theorem find?_perm_unique {α : Type} (p : α → Bool) :
    ∀ {l₁ l₂ : List α}, l₁.Perm l₂ →
      (∀ a ∈ l₁, ∀ b ∈ l₁, p a = true → p b = true → a = b) →
      l₁.find? p = l₂.find? p := by
  intro l₁ l₂ hperm
  induction hperm with
  | nil => intro _; rfl
  | cons x h ih =>
    intro hu
    by_cases hx : p x = true
    · simp [List.find?_cons, hx]
    · simp only [List.find?_cons, hx]
      exact ih fun a ha b hb => hu a (List.mem_cons_of_mem _ ha) b (List.mem_cons_of_mem _ hb)
  | swap x y l =>
    intro hu
    by_cases hx : p x = true
    · by_cases hy : p y = true
      · simp only [List.find?_cons, hx, hy]
        exact congrArg some (hu y (by simp) x (by simp) hy hx)
      · simp [List.find?_cons, hx, hy]
    · by_cases hy : p y = true
      · simp [List.find?_cons, hx, hy]
      · simp [List.find?_cons, hx, hy]
  | trans h₁ h₂ ih₁ ih₂ =>
    intro hu
    rw [ih₁ hu]
    apply ih₂
    intro a ha b hb hpa hpb
    exact hu a (h₁.mem_iff.mpr ha) b (h₁.mem_iff.mpr hb) hpa hpb

theorem isSingleUnkeyed_perm {l₁ l₂ : List NodeRow} (h : l₁.Perm l₂) :
    isSingleUnkeyed l₁ = isSingleUnkeyed l₂ := by
  cases l₁ with
  | nil => rw [h.symm.eq_nil]
  | cons a t =>
    cases t with
    | nil =>
      rw [List.perm_singleton.mp h.symm]
    | cons b t2 =>
      have hlen := h.length_eq
      cases l₂ with
      | nil => simp only [List.length_cons, List.length_nil] at hlen; omega
      | cons x t3 =>
        cases t3 with
        | nil => simp only [List.length_cons, List.length_nil] at hlen; omega
        | cons y t4 => rfl

theorem buildNormObj_toList :
    ∀ (rows : List NodeRow) (acc : JObj),
      (∀ r ∈ rows, keyTruthy r.key = true ∧ r.type ≠ "array" ∧ r.type ≠ "object") →
      (rows.filterMap NodeRow.key).Nodup →
      (∀ k, k ∈ rows.filterMap NodeRow.key → acc.lookup k = none) →
      (buildNormObj acc rows).toList =
        acc.toList ++ rows.map (fun r => (r.key.getD "", r.value)) := by
  intro rows
  induction rows with
  | nil => intro acc _ _ _; simp [buildNormObj, JObj.toList]
  | cons r rest ih =>
    intro acc hsc hnd hfresh
    obtain ⟨hkt, hta, hto⟩ := hsc r (List.mem_cons_self _ _)
    cases hrk : r.key with
    | none => rw [hrk] at hkt; simp [keyTruthy] at hkt
    | some k =>
      rw [hrk] at hkt
      have hkne : k ≠ "" := by simpa [keyTruthy] using hkt
      have hstep : buildNormObj acc (r :: rest) = buildNormObj (acc.set k r.value) rest := by
        simp [buildNormObj, hrk, hkne, hta, hto]
      rw [hstep]
      simp only [List.filterMap_cons, hrk] at hnd hfresh
      have hfreshk : acc.lookup k = none := hfresh k (List.mem_cons_self _ _)
      have ihres := ih (acc.set k r.value)
        (fun r2 h2 => hsc r2 (List.mem_cons_of_mem _ h2))
        (List.nodup_cons.mp hnd).2
        (fun k2 hk2 => by
          have hne2 : k ≠ k2 := fun he => (List.nodup_cons.mp hnd).1 (he ▸ hk2)
          rw [JObj.lookup_set_ne _ _ _ _ hne2]
          exact hfresh k2 (List.mem_cons_of_mem _ hk2))
      rw [ihres, JObj.set_fresh _ _ _ hfreshk]
      simp [hrk]

theorem rootBase_arr (a : JArr) : rootBase (JSON.arr a) = JSON.arr a := rfl

/-- C7: the coercion checks null first (both the null value and the literal
string), then compares strictly against true, "true" and "1" for the boolean
tag, then applies Number() for the number tag, and passes everything else —
object, array and default alike — through unchanged. -/
theorem spec_C7_parseValueByType (v : JSON) (t : String) :
    ((v = JSON.null ∨ v = JSON.str "null") → parseValueByType v t = JSON.null) ∧
    (v ≠ JSON.null → v ≠ JSON.str "null" → t = "boolean" →
      parseValueByType v t =
        JSON.bool (v == JSON.bool true || v == JSON.str "true" || v == JSON.str "1")) ∧
    (v ≠ JSON.null → v ≠ JSON.str "null" → t = "number" →
      parseValueByType v t = jsNumber v) ∧
    (v ≠ JSON.null → v ≠ JSON.str "null" → (t = "object" ∨ t = "array") →
      parseValueByType v t = v) ∧
    (v ≠ JSON.null → v ≠ JSON.str "null" → t ≠ "boolean" → t ≠ "number" → t ≠ "object" →
      t ≠ "array" → parseValueByType v t = v) := by
  refine ⟨?_, ?_, ?_, ?_, ?_⟩
  · rintro (rfl | rfl) <;> simp [parseValueByType]
  · intro h1 h2 ht
    subst ht
    simp [parseValueByType, h1, h2]
  · intro h1 h2 ht
    subst ht
    simp [parseValueByType, h1, h2]
  · rintro h1 h2 (rfl | rfl) <;> simp [parseValueByType, h1, h2]
  · intro h1 h2 hb hn ho ha
    simp [parseValueByType, h1, h2, hb, hn, ho, ha]

theorem spec_C7_witness :
    parseValueByType (JSON.str "null") "boolean" = JSON.null ∧
    parseValueByType (JSON.str "true") "boolean" = JSON.bool true ∧
    parseValueByType (JSON.str "31") "number" = JSON.num 31 ∧
    parseValueByType (JSON.str "x") "object" = JSON.str "x" ∧
    parseValueByType (JSON.str "x") "custom" = JSON.str "x" := by
  refine ⟨?_, ?_, ?_, ?_, ?_⟩
  · exact (spec_C7_parseValueByType (JSON.str "null") "boolean").1 (Or.inr rfl)
  · exact ((spec_C7_parseValueByType (JSON.str "true") "boolean").2.1
      (by decide) (by decide) rfl).trans (by decide)
  · exact ((spec_C7_parseValueByType (JSON.str "31") "number").2.2.1
      (by decide) (by decide) rfl).trans (by decide)
  · exact (spec_C7_parseValueByType (JSON.str "x") "object").2.2.2.1
      (by decide) (by decide) (Or.inl rfl)
  · exact (spec_C7_parseValueByType (JSON.str "x") "custom").2.2.2.2
      (by decide) (by decide) (by decide) (by decide) (by decide) (by decide)

/-- C10: the null check of the coercion fires before any tag dispatch, so the
string "null" (and the null value) coerce to JSON null under every tag; in
particular a string-tagged field edited to the text value "null" is stored as
JSON null, not as the string. -/
theorem spec_C10_null_wins :
    (∀ t : String, parseValueByType (JSON.str "null") t = JSON.null) ∧
    (∀ t : String, parseValueByType JSON.null t = JSON.null) ∧
    updateJsonCore (JSON.obj (.cons "a" (JSON.str "x") .nil)) []
        [{ key := some "a", value := JSON.str "null", type := "string" }] =
      .ok (JSON.obj (.cons "a" JSON.null .nil)) := by
  refine ⟨?_, ?_, by decide⟩
  · intro t; simp [parseValueByType]
  · intro t; simp [parseValueByType]

/-- C3: unparseable edited text makes the content parser fail with the
invalid-format error, and the save handler catches the throw before any store
write, leaving the document, contents and graph state exactly as they were. -/
theorem spec_C3_invalid_text (content : String) (h : jsonParse content = none) :
    (∀ originalRows, parseEditedContent content originalRows = .error "Invalid JSON format") ∧
    (∀ (st : AppState) (nodePath : List Seg) (nodeRows : List NodeRow),
      handleSave st content nodePath nodeRows = st) := by
  constructor
  · intro rows
    simp [parseEditedContent, h]
  · intro st p rows
    simp [handleSave, parseEditedContent, h]

theorem spec_C3_witness :
    jsonParse "\x7bnot json" = none ∧
    parseEditedContent "\x7bnot json" [] = .error "Invalid JSON format" ∧
    handleSave { json := "\x7b\"a\": 1\x7d", contents := "c", graphJson := "g" }
        "\x7bnot json" [] [] =
      { json := "\x7b\"a\": 1\x7d", contents := "c", graphJson := "g" } :=
  ⟨by decide, (spec_C3_invalid_text "\x7bnot json" (by decide)).1 [],
    (spec_C3_invalid_text "\x7bnot json" (by decide)).2 _ [] []⟩

/-- C1 counterexample: a path whose final segment names a non-existent key,
and one whose final segment is past the array bounds, both make the patch
succeed — the key is created, the array is extended with nulls — instead of
failing with a path error as claimed. -/
theorem spec_C1_counterexample :
    (JObj.cons "a" (JSON.num 1) .nil).lookup "b" = none ∧
    updateJsonCore (JSON.obj (.cons "a" (JSON.num 1) .nil)) [Seg.key "b"]
        [{ key := none, value := JSON.num 5, type := "number" }] =
      .ok (JSON.obj (.cons "a" (JSON.num 1) (.cons "b" (JSON.num 5) .nil))) ∧
    (JArr.cons (JSON.num 1) .nil).get? 3 = none ∧
    updateJsonCore (JSON.arr (.cons (JSON.num 1) .nil)) [Seg.idx 3]
        [{ key := none, value := JSON.num 9, type := "number" }] =
      .ok (JSON.arr (.cons (JSON.num 1) (.cons JSON.null (.cons JSON.null
        (.cons (JSON.num 9) .nil))))) := by
  decide

/-- C4 counterexample: a single unkeyed row whose value is the string "null"
is stored as JSON null, so re-resolving the path does not yield the value the
row carried. -/
theorem spec_C4_counterexample :
    jsResolve (some (JSON.obj (.cons "a" (JSON.num 1) .nil))) [Seg.key "a"] =
      .ok (some (JSON.num 1)) ∧
    (JSON.num 1).isContainer = false ∧
    updateJsonCore (JSON.obj (.cons "a" (JSON.num 1) .nil)) [Seg.key "a"]
        [{ key := none, value := JSON.str "null", type := "string" }] =
      .ok (JSON.obj (.cons "a" JSON.null .nil)) ∧
    jsResolve (some (JSON.obj (.cons "a" JSON.null .nil))) [Seg.key "a"] ≠
      .ok (some (JSON.str "null")) := by
  decide

/-- C5 counterexample: a row set of a single unkeyed string row is entirely
scalar-typed, yet normalize renders the bare string without quotes, which the
parser then rejects — parse is not a left inverse of normalize there. -/
theorem spec_C5_counterexample :
    (∀ r ∈ [({ key := none, value := JSON.str "hi", type := "string" } : NodeRow)],
      r.type ≠ "array" ∧ r.type ≠ "object") ∧
    normalizeNodeData [{ key := none, value := JSON.str "hi", type := "string" }] = "hi" ∧
    parseEditedContent
        (normalizeNodeData [{ key := none, value := JSON.str "hi", type := "string" }])
        [{ key := none, value := JSON.str "hi", type := "string" }] =
      .error "Invalid JSON format" := by
  refine ⟨?_, by decide, by decide⟩
  intro r hr
  simp only [List.mem_singleton] at hr
  subst hr
  exact ⟨by decide, by decide⟩

/-- C6 counterexample: when the original row set is a single unkeyed row, an
edited text parsing to a two-key object produces one row holding the whole
object, not one row per enumerable key. -/
theorem spec_C6_counterexample :
    jsonParse "\x7b\"a\": 1, \"b\": 2\x7d" =
      some (JSON.obj (.cons "a" (JSON.num 1) (.cons "b" (JSON.num 2) .nil))) ∧
    parseEditedContent "\x7b\"a\": 1, \"b\": 2\x7d"
        [{ key := none, value := JSON.num 7, type := "number" }] =
      .ok [{ key := none,
             value := JSON.obj (.cons "a" (JSON.num 1) (.cons "b" (JSON.num 2) .nil)),
             type := "number" }] ∧
    ([(⟨none, JSON.obj (.cons "a" (JSON.num 1) (.cons "b" (JSON.num 2) .nil)),
        "number"⟩ : NodeRow)]).length ≠
      (JObj.cons "a" (JSON.num 1) (.cons "b" (JSON.num 2) .nil)).toList.length := by
  decide

/-- C8 counterexample: a keyed-row edit at the root of an array document does
not merge into an empty object — the array, being typeof object in
JavaScript, is spread, so its indices survive as string keys. -/
theorem spec_C8_counterexample :
    updateJsonCore (JSON.arr (.cons (JSON.num 1) (.cons (JSON.num 2) .nil))) []
        [{ key := some "b", value := JSON.num 5, type := "number" }] =
      .ok (JSON.obj (.cons "0" (JSON.num 1) (.cons "1" (JSON.num 2)
        (.cons "b" (JSON.num 5) .nil)))) ∧
    updateJsonCore (JSON.arr (.cons (JSON.num 1) (.cons (JSON.num 2) .nil))) []
        [{ key := some "b", value := JSON.num 5, type := "number" }] ≠
      .ok (JSON.obj (mergeRows JObj.nil
        [{ key := some "b", value := JSON.num 5, type := "number" }])) := by
  decide

/-- C9 counterexample: a keyed merge over an existing array value does not
start from an empty object; the former array contributes its indices as
string keys to the merged result. -/
theorem spec_C9_counterexample :
    jsResolve (some (JSON.obj (.cons "a" (JSON.arr (.cons (JSON.num 1)
        (.cons (JSON.num 2) .nil))) .nil))) [Seg.key "a"] =
      .ok (some (JSON.arr (.cons (JSON.num 1) (.cons (JSON.num 2) .nil)))) ∧
    updateJsonCore (JSON.obj (.cons "a" (JSON.arr (.cons (JSON.num 1)
        (.cons (JSON.num 2) .nil))) .nil)) [Seg.key "a"]
        [{ key := some "b", value := JSON.num 5, type := "number" }] =
      .ok (JSON.obj (.cons "a" (JSON.obj (.cons "0" (JSON.num 1)
        (.cons "1" (JSON.num 2) (.cons "b" (JSON.num 5) .nil)))) .nil)) ∧
    JSON.obj (.cons "0" (JSON.num 1) (.cons "1" (JSON.num 2)
        (.cons "b" (JSON.num 5) .nil))) ≠
      JSON.obj (mergeRows JObj.nil
        [{ key := some "b", value := JSON.num 5, type := "number" }]) := by
  decide

/-- C2: patching a path that resolves to an existing object with a keyed row
set merges: every key of the object not written by the rows keeps its old
value, and every key a row writes holds the coerced row value. Distinctness
of the written keys reflects the row-set invariant (rows map one-to-one onto
the object keys). -/
theorem spec_C2_merge_preserves (D : JSON) (P : List Seg) (fs : JObj)
    (rows : List NodeRow)
    (hres : jsResolve (some D) P = .ok (some (JSON.obj fs)))
    (hrows : isSingleUnkeyed rows = false)
    (hnodup : (rowKeys rows).Nodup) :
    ∃ D2, updateJsonCore D P rows = .ok D2 ∧
      ∃ fs2, jsResolve (some D2) P = .ok (some (JSON.obj fs2)) ∧
        (∀ k, k ∉ rowKeys rows → fs2.lookup k = fs.lookup k) ∧
        (∀ r ∈ rows, ∀ k, r.key = some k → k ≠ "" →
          fs2.lookup k = some (parseValueByType r.value r.type)) := by
  cases P with
  | nil =>
    simp only [jsResolve] at hres
    injection hres with hres
    injection hres with hres
    subst hres
    refine ⟨JSON.obj (mergeRows fs rows), ?_, mergeRows fs rows, ?_, ?_, ?_⟩
    · simp [updateJsonCore, hrows, rootBase_obj, spreadFields]
    · simp [jsResolve]
    · intro k hk
      exact mergeRows_lookup_not_mem rows fs k hk
    · intro r hm k hk hne
      exact mergeRows_lookup_mem rows fs r k hm hk hne hnodup
  | cons s rest =>
    have hfin : ∀ (d : JSON) (sg : Seg), d.isContainer = true →
        jsGetStep (some d) sg = .ok (some (JSON.obj fs)) →
        finKeyed rows (some d) sg =
          .ok (setIn d sg (JSON.obj (mergeRows fs rows))) := by
      intro d sg hc hstep
      simp only [finKeyed, hstep, mergeBase_some_obj]
      exact jsSet_container_eq d sg _ hc
    obtain ⟨root, hnav, hres2⟩ :=
      navUpdate_resolve_setIn (finKeyed rows) (JSON.obj fs)
        (JSON.obj (mergeRows fs rows)) hfin (s :: rest) (some D) (by simp) hres
    refine ⟨root, ?_, mergeRows fs rows, hres2, ?_, ?_⟩
    · simp only [updateJsonCore, hrows, Bool.false_eq_true, if_false]
      exact hnav
    · intro k hk
      exact mergeRows_lookup_not_mem rows fs k hk
    · intro r hm k hk hne
      exact mergeRows_lookup_mem rows fs r k hm hk hne hnodup

theorem spec_C2_witness :
    jsResolve (some (JSON.obj (.cons "customer" (JSON.obj (.cons "name" (JSON.str "Al")
        (.cons "age" (JSON.num 30) (.cons "vip" (JSON.bool true) .nil)))) .nil)))
        [Seg.key "customer"] =
      .ok (some (JSON.obj (.cons "name" (JSON.str "Al")
        (.cons "age" (JSON.num 30) (.cons "vip" (JSON.bool true) .nil)))) ) ∧
    (∃ D2, updateJsonCore (JSON.obj (.cons "customer" (JSON.obj (.cons "name" (JSON.str "Al")
        (.cons "age" (JSON.num 30) (.cons "vip" (JSON.bool true) .nil)))) .nil))
        [Seg.key "customer"]
        [{ key := some "age", value := JSON.num 31, type := "number" }] = .ok D2 ∧
      ∃ fs2, jsResolve (some D2) [Seg.key "customer"] = .ok (some (JSON.obj fs2)) ∧
        (∀ k, k ∉ rowKeys [{ key := some "age", value := JSON.num 31, type := "number" }] →
          fs2.lookup k = (JObj.cons "name" (JSON.str "Al")
            (.cons "age" (JSON.num 30) (.cons "vip" (JSON.bool true) .nil))).lookup k) ∧
        (∀ r ∈ [({ key := some "age", value := JSON.num 31, type := "number" } : NodeRow)],
          ∀ k, r.key = some k → k ≠ "" →
          fs2.lookup k = some (parseValueByType r.value r.type))) :=
  ⟨by decide,
    spec_C2_merge_preserves _ [Seg.key "customer"] _ _ (by decide) (by decide) (by decide)⟩

/-- C1 amended: the non-root patch fails (with a type error propagated by the
rethrow) exactly when the parent location — the path minus its final segment —
does not resolve to an object or array; a final segment naming a missing key
or an out-of-bounds index does not make it fail (the counterexample shows the
write then lands there, creating the key or extending the array). -/
theorem spec_C1_amended (D : JSON) (P : List Seg) (rows : List NodeRow)
    (hP : P ≠ []) :
    (updateJsonCore D P rows).isOk = true ↔
      ∃ c, jsResolve (some D) P.dropLast = .ok (some c) ∧ c.isContainer = true := by
  cases P with
  | nil => exact absurd rfl hP
  | cons s rest =>
    by_cases hsu : isSingleUnkeyed rows = true
    · have hu : updateJsonCore D (s :: rest) rows =
          navUpdate (some D) (s :: rest)
            (finSingle (headRowValue rows) (headRowType rows)) := by
        simp [updateJsonCore, hsu]
      rw [hu]
      exact navUpdate_isOk_iff _
        (fun cur sg h => finSingle_err _ _ cur sg h)
        (fun d sg h => finSingle_ok _ _ d sg h)
        (s :: rest) (some D) (by simp)
    · have hu : updateJsonCore D (s :: rest) rows =
          navUpdate (some D) (s :: rest) (finKeyed rows) := by
        simp [updateJsonCore, hsu]
      rw [hu]
      exact navUpdate_isOk_iff _
        (fun cur sg h => finKeyed_err _ cur sg h)
        (fun d sg h => finKeyed_ok _ d sg h)
        (s :: rest) (some D) (by simp)

theorem spec_C1_witness :
    ((updateJsonCore (JSON.obj (.cons "a" (JSON.num 1) .nil)) [Seg.key "b"]
        [{ key := none, value := JSON.num 5, type := "number" }]).isOk = true ↔
      ∃ c, jsResolve (some (JSON.obj (.cons "a" (JSON.num 1) .nil)))
          ([Seg.key "b"].dropLast) = .ok (some c) ∧ c.isContainer = true) ∧
    ((updateJsonCore (JSON.obj (.cons "a" (JSON.num 1) .nil))
        [Seg.key "x", Seg.key "y"]
        [{ key := none, value := JSON.num 5, type := "number" }]).isOk = true ↔
      ∃ c, jsResolve (some (JSON.obj (.cons "a" (JSON.num 1) .nil)))
          ([Seg.key "x", Seg.key "y"].dropLast) = .ok (some c) ∧
        c.isContainer = true) :=
  ⟨spec_C1_amended _ [Seg.key "b"] _ (by decide),
    spec_C1_amended _ [Seg.key "x", Seg.key "y"] _ (by decide)⟩

/-- C4 amended: patching with a single unkeyed row stores the coerced value,
so re-resolving the path yields parseValueByType of the carried value under
the row tag — not always the carried value itself (see the counterexample);
at the root the document simply becomes the carried value verbatim. -/
theorem spec_C4_amended :
    (∀ (D : JSON) (r : NodeRow), keyTruthy r.key = false →
      updateJsonCore D [] [r] = .ok r.value) ∧
    (∀ (D : JSON) (P : List Seg) (w : JSON) (r : NodeRow),
      P ≠ [] → keyTruthy r.key = false →
      jsResolve (some D) P = .ok (some w) → w.isContainer = false →
      ∃ D2, updateJsonCore D P [r] = .ok D2 ∧
        jsResolve (some D2) P = .ok (some (parseValueByType r.value r.type))) := by
  constructor
  · intro D r h
    simp [updateJsonCore, isSingleUnkeyed, h, headRowValue]
  · intro D P w r hP hkey hres _
    have hsu : isSingleUnkeyed [r] = true := by
      simp [isSingleUnkeyed, hkey]
    have hfin : ∀ (d : JSON) (sg : Seg), d.isContainer = true →
        jsGetStep (some d) sg = .ok (some w) →
        finSingle r.value r.type (some d) sg =
          .ok (setIn d sg (parseValueByType r.value r.type)) := by
      intro d sg hc _
      exact jsSet_container_eq d sg _ hc
    cases P with
    | nil => exact absurd rfl hP
    | cons s rest =>
      obtain ⟨root, hnav, hres2⟩ :=
        navUpdate_resolve_setIn (finSingle r.value r.type) w
          (parseValueByType r.value r.type) hfin (s :: rest) (some D) (by simp) hres
      refine ⟨root, ?_, hres2⟩
      simp only [updateJsonCore, hsu, if_true]
      exact hnav

theorem spec_C4_witness :
    keyTruthy (none : Option String) = false ∧
    jsResolve (some (JSON.obj (.cons "a" (JSON.num 1) .nil))) [Seg.key "a"] =
      .ok (some (JSON.num 1)) ∧
    (∃ D2, updateJsonCore (JSON.obj (.cons "a" (JSON.num 1) .nil)) [Seg.key "a"]
        [{ key := none, value := JSON.num 7, type := "number" }] = .ok D2 ∧
      jsResolve (some D2) [Seg.key "a"] =
        .ok (some (parseValueByType (JSON.num 7) "number"))) :=
  ⟨by decide, by decide,
    spec_C4_amended.2 _ [Seg.key "a"] (JSON.num 1) _ (by decide) (by decide)
      (by decide) (by decide)⟩

/-- C8 amended: a single unkeyed row at the empty path replaces the whole
document with its value; a keyed row set merges into the existing root when
the root is an object (unwritten keys survive, written keys hold the coerced
values), merges over the spread indices of the root when it is an array
(typeof array is object in JavaScript), and merges into an empty object only
when the root is null or a scalar. -/
theorem spec_C8_amended :
    (∀ (D : JSON) (r : NodeRow), keyTruthy r.key = false →
      updateJsonCore D [] [r] = .ok r.value) ∧
    (∀ (fs : JObj) (rows : List NodeRow), isSingleUnkeyed rows = false →
      (rowKeys rows).Nodup →
      ∃ fs2, updateJsonCore (JSON.obj fs) [] rows = .ok (JSON.obj fs2) ∧
        (∀ k, k ∉ rowKeys rows → fs2.lookup k = fs.lookup k) ∧
        (∀ r ∈ rows, ∀ k, r.key = some k → k ≠ "" →
          fs2.lookup k = some (parseValueByType r.value r.type))) ∧
    (∀ (a : JArr) (rows : List NodeRow), isSingleUnkeyed rows = false →
      updateJsonCore (JSON.arr a) [] rows =
        .ok (JSON.obj (mergeRows (a.indexFieldsFrom 0) rows))) ∧
    (∀ (D : JSON) (rows : List NodeRow), D.isContainer = false →
      isSingleUnkeyed rows = false →
      updateJsonCore D [] rows = .ok (JSON.obj (mergeRows JObj.nil rows))) := by
  refine ⟨?_, ?_, ?_, ?_⟩
  · intro D r h
    simp [updateJsonCore, isSingleUnkeyed, h, headRowValue]
  · intro fs rows hsu hnd
    refine ⟨mergeRows fs rows, ?_, ?_, ?_⟩
    · simp [updateJsonCore, hsu, rootBase_obj, spreadFields]
    · intro k hk
      exact mergeRows_lookup_not_mem rows fs k hk
    · intro r hm k hk hne
      exact mergeRows_lookup_mem rows fs r k hm hk hne hnd
  · intro a rows hsu
    simp [updateJsonCore, hsu, rootBase_arr, spreadFields]
  · intro D rows hD hsu
    rw [show updateJsonCore D [] rows =
        .ok (JSON.obj (mergeRows (spreadFields (rootBase D)) rows)) by
      simp [updateJsonCore, hsu]]
    rw [rootBase_noncontainer D hD]
    rfl

theorem spec_C8_witness :
    keyTruthy (none : Option String) = false ∧
    updateJsonCore (JSON.obj (.cons "a" (JSON.num 1) (.cons "b" (JSON.num 2) .nil))) []
        [{ key := none, value := JSON.num 5, type := "number" }] = .ok (JSON.num 5) ∧
    (∃ fs2, updateJsonCore
        (JSON.obj (.cons "a" (JSON.num 1) (.cons "b" (JSON.num 2) .nil))) []
        [{ key := some "b", value := JSON.num 9, type := "number" }] =
          .ok (JSON.obj fs2) ∧
      (∀ k, k ∉ rowKeys [{ key := some "b", value := JSON.num 9, type := "number" }] →
        fs2.lookup k =
          (JObj.cons "a" (JSON.num 1) (.cons "b" (JSON.num 2) .nil)).lookup k) ∧
      (∀ r ∈ [({ key := some "b", value := JSON.num 9, type := "number" } : NodeRow)],
        ∀ k, r.key = some k → k ≠ "" →
        fs2.lookup k = some (parseValueByType r.value r.type))) ∧
    updateJsonCore (JSON.num 3) []
        [{ key := some "b", value := JSON.num 9, type := "number" }] =
      .ok (JSON.obj (mergeRows JObj.nil
        [{ key := some "b", value := JSON.num 9, type := "number" }])) :=
  ⟨by decide,
    spec_C8_amended.1 _ _ (by decide),
    spec_C8_amended.2.1 _ _ (by decide) (by decide),
    spec_C8_amended.2.2.2 (JSON.num 3) _ (by decide) (by decide)⟩

/-- C9 amended: for a non-root path whose existing value is neither object
nor array — a scalar or null — the keyed merge starts from an empty object,
so the patched location holds exactly the coerced keyed rows; an existing
array instead contributes its spread indices (see the counterexample). -/
theorem spec_C9_amended (D : JSON) (P : List Seg) (w : JSON) (rows : List NodeRow)
    (hP : P ≠ []) (hres : jsResolve (some D) P = .ok (some w))
    (hw : w.isContainer = false)
    (hrows : isSingleUnkeyed rows = false) (hnodup : (rowKeys rows).Nodup) :
    ∃ D2, updateJsonCore D P rows = .ok D2 ∧
      ∃ fs2, jsResolve (some D2) P = .ok (some (JSON.obj fs2)) ∧
        fs2 = mergeRows JObj.nil rows ∧
        (∀ k v, fs2.lookup k = some v →
          ∃ r ∈ rows, r.key = some k ∧ k ≠ "" ∧
            v = parseValueByType r.value r.type) ∧
        (∀ r ∈ rows, ∀ k, r.key = some k → k ≠ "" →
          fs2.lookup k = some (parseValueByType r.value r.type)) := by
  cases P with
  | nil => exact absurd rfl hP
  | cons s rest =>
    have hfin : ∀ (d : JSON) (sg : Seg), d.isContainer = true →
        jsGetStep (some d) sg = .ok (some w) →
        finKeyed rows (some d) sg =
          .ok (setIn d sg (JSON.obj (mergeRows JObj.nil rows))) := by
      intro d sg hc hstep
      simp only [finKeyed, hstep, mergeBase_noncontainer w hw]
      exact jsSet_container_eq d sg _ hc
    obtain ⟨root, hnav, hres2⟩ :=
      navUpdate_resolve_setIn (finKeyed rows) w
        (JSON.obj (mergeRows JObj.nil rows)) hfin (s :: rest) (some D) (by simp) hres
    refine ⟨root, ?_, mergeRows JObj.nil rows, hres2, rfl, ?_, ?_⟩
    · simp only [updateJsonCore, hrows, Bool.false_eq_true, if_false]
      exact hnav
    · intro k v hk
      rcases mergeRows_lookup_some rows JObj.nil k v hk with h1 | h2
      · cases h1
      · exact h2
    · intro r hm k hk hne
      exact mergeRows_lookup_mem rows JObj.nil r k hm hk hne hnodup

theorem spec_C9_witness :
    jsResolve (some (JSON.obj (.cons "a" (JSON.num 4) .nil))) [Seg.key "a"] =
      .ok (some (JSON.num 4)) ∧
    (JSON.num 4).isContainer = false ∧
    (∃ D2, updateJsonCore (JSON.obj (.cons "a" (JSON.num 4) .nil)) [Seg.key "a"]
        [{ key := some "b", value := JSON.num 5, type := "number" }] = .ok D2 ∧
      ∃ fs2, jsResolve (some D2) [Seg.key "a"] = .ok (some (JSON.obj fs2)) ∧
        fs2 = mergeRows JObj.nil
          [{ key := some "b", value := JSON.num 5, type := "number" }] ∧
        (∀ k v, fs2.lookup k = some v →
          ∃ r ∈ [({ key := some "b", value := JSON.num 5, type := "number" } : NodeRow)],
            r.key = some k ∧ k ≠ "" ∧ v = parseValueByType r.value r.type) ∧
        (∀ r ∈ [({ key := some "b", value := JSON.num 5, type := "number" } : NodeRow)],
          ∀ k, r.key = some k → k ≠ "" →
          fs2.lookup k = some (parseValueByType r.value r.type))) :=
  ⟨by decide, by decide,
    spec_C9_amended _ [Seg.key "a"] (JSON.num 4) _ (by decide) (by decide)
      (by decide) (by decide) (by decide)⟩

/-- Declared tag of the original row matching a key, with the JavaScript
falsy fallback of an empty tag (the || of source line 61). -/
def declaredTagOf (originalRows : List NodeRow) (k : String) : Option String :=
  (originalRows.find? fun row => row.key == some k).bind fun r =>
    if r.type = "" then none else some r.type

/-- Kind inference stated the way the specification words it, for the
refinement comparison: the runtime shape wins for arrays, objects, booleans
and numbers; anything else falls back to the declared tag when present and to
string otherwise. -/
def specInferredKind (declared : Option String) : JSON → String
  | .arr _ => "array"
  | .obj _ => "object"
  | .bool _ => "boolean"
  | .num _ => "number"
  | .null => declared.getD "string"
  | .str _ => declared.getD "string"

theorem inferTypeOf_eq_specInferredKind (originalRows : List NodeRow) (k : String)
    (v : JSON) :
    inferTypeOf (originalRows.find? fun row => row.key == some k) v =
      specInferredKind (declaredTagOf originalRows k) v := by
  cases hf : originalRows.find? (fun row => row.key == some k) with
  | none =>
    cases v <;>
      simp [inferTypeOf, specInferredKind, declaredTagOf, hf, isArrV, isBoolV,
        isNumV, jsTypeofObject]
  | some r =>
    by_cases ht : r.type = ""
    · cases v <;>
        simp [inferTypeOf, specInferredKind, declaredTagOf, hf, ht, isArrV,
          isBoolV, isNumV, jsTypeofObject]
    · cases v <;>
        simp [inferTypeOf, specInferredKind, declaredTagOf, hf, ht, isArrV,
          isBoolV, isNumV, jsTypeofObject]

/-- C6 amended: when the original row set is not a single unkeyed row (the
single-scalar branch excluded by the counterexample), an edited text parsing
to an object yields one row per enumerable key, typed by the runtime-shape
rule with declared-tag fallback as the specification words it, and the result
does not depend on the order of the original rows when their keys are
distinct. -/
theorem spec_C6_amended (content : String) (fs : JObj) (originalRows : List NodeRow)
    (hp : jsonParse content = some (JSON.obj fs))
    (hsu : isSingleUnkeyed originalRows = false)
    (hnd : (originalRows.filterMap NodeRow.key).Nodup) :
    ∃ rows2, parseEditedContent content originalRows = .ok rows2 ∧
      rows2 = fs.toList.map (fun kv =>
        { key := some kv.1, value := kv.2,
          type := specInferredKind (declaredTagOf originalRows kv.1) kv.2 }) ∧
      rows2.length = fs.toList.length ∧
      (∀ rows3 : List NodeRow, rows3.Perm originalRows →
        parseEditedContent content rows3 = parseEditedContent content originalRows) := by
  have hpec : parseEditedContent content originalRows =
      .ok (fs.toList.map fun kv =>
        { key := some kv.1, value := kv.2,
          type := inferTypeOf (originalRows.find? fun row => row.key == some kv.1)
            kv.2 }) := by
    simp [parseEditedContent, hp, hsu, jsEntries]
  refine ⟨_, hpec, ?_, by simp, ?_⟩
  · apply List.map_congr_left
    intro kv _
    rw [inferTypeOf_eq_specInferredKind]
  · intro rows3 hperm
    have hsu3 : isSingleUnkeyed rows3 = false := (isSingleUnkeyed_perm hperm).trans hsu
    have hnd3 : (rows3.filterMap NodeRow.key).Nodup :=
      ((hperm.filterMap _).nodup_iff).mpr hnd
    have hfind : ∀ k : String, rows3.find? (fun row => row.key == some k) =
        originalRows.find? (fun row => row.key == some k) := by
      intro k
      apply find?_perm_unique _ hperm
      intro a ha b hb hpa hpb
      have hak : a.key = some k := by simpa using hpa
      have hbk : b.key = some k := by simpa using hpb
      exact unique_of_nodup_keys rows3 hnd3 a ha b hb k hak hbk
    simp only [parseEditedContent, hp, hsu3, hsu, Bool.false_eq_true, if_false,
      jsEntries]
    refine congrArg Except.ok (List.map_congr_left ?_)
    intro kv _
    rw [hfind kv.1]

theorem spec_C6_witness :
    jsonParse "\x7b\"a\": 5, \"c\": \"z\"\x7d" =
      some (JSON.obj (.cons "a" (JSON.num 5) (.cons "c" (JSON.str "z") .nil))) ∧
    (∃ rows2, parseEditedContent "\x7b\"a\": 5, \"c\": \"z\"\x7d"
        [{ key := some "a", value := JSON.str "old", type := "string" }] = .ok rows2 ∧
      rows2 = (JObj.cons "a" (JSON.num 5) (.cons "c" (JSON.str "z") .nil)).toList.map
        (fun kv =>
          { key := some kv.1, value := kv.2,
            type := specInferredKind (declaredTagOf
              [{ key := some "a", value := JSON.str "old", type := "string" }] kv.1)
              kv.2 }) ∧
      rows2.length =
        (JObj.cons "a" (JSON.num 5) (.cons "c" (JSON.str "z") .nil)).toList.length ∧
      (∀ rows3 : List NodeRow,
        rows3.Perm [{ key := some "a", value := JSON.str "old", type := "string" }] →
        parseEditedContent "\x7b\"a\": 5, \"c\": \"z\"\x7d" rows3 =
          parseEditedContent "\x7b\"a\": 5, \"c\": \"z\"\x7d"
            [{ key := some "a", value := JSON.str "old", type := "string" }])) :=
  ⟨by decide, spec_C6_amended _ _ _ (by decide) (by decide) (by decide)⟩

/-- C5 amended: for keyed rows with distinct keys and scalar kind tags, and
granted that the host parser reads the normalized text back to the normalized
object (the parser and serializer are host builtins the code delegates to),
parsing the normalized text reconstructs rows with exactly the original
key/value pairs, order-independently. The single-unkeyed-row case of the
original claim fails (see the counterexample: a bare string normalizes to
unquoted text that no JSON parser accepts). -/
theorem spec_C5_amended (rows : List NodeRow)
    (hkeyed : ∀ r ∈ rows, keyTruthy r.key = true)
    (hscalar : ∀ r ∈ rows, r.type ≠ "array" ∧ r.type ≠ "object")
    (hnd : (rows.filterMap NodeRow.key).Nodup)
    (hround : jsonParse (normalizeNodeData rows) =
      some (JSON.obj (buildNormObj .nil rows))) :
    ∃ rows2, parseEditedContent (normalizeNodeData rows) rows = .ok rows2 ∧
      (rows2.map fun r => (r.key, r.value)).Perm
        (rows.map fun r => (r.key, r.value)) := by
  have hsu : isSingleUnkeyed rows = false := by
    cases rows with
    | nil => rfl
    | cons r t =>
      cases t with
      | nil =>
        have hk := hkeyed r (List.mem_cons_self _ _)
        simp [isSingleUnkeyed, hk]
      | cons r2 t2 => rfl
  have htl : (buildNormObj JObj.nil rows).toList =
      rows.map (fun r => (r.key.getD "", r.value)) := by
    have hb := buildNormObj_toList rows JObj.nil
      (fun r hr => ⟨hkeyed r hr, (hscalar r hr).1, (hscalar r hr).2⟩)
      hnd (fun k _ => rfl)
    simpa [JObj.toList] using hb
  have hpec : parseEditedContent (normalizeNodeData rows) rows =
      .ok ((buildNormObj JObj.nil rows).toList.map fun kv =>
        { key := some kv.1, value := kv.2,
          type := inferTypeOf (rows.find? fun row => row.key == some kv.1) kv.2 }) := by
    simp [parseEditedContent, hround, hsu, jsEntries]
  refine ⟨_, hpec, ?_⟩
  rw [htl, List.map_map, List.map_map]
  have hpt : ∀ r ∈ rows,
      (((fun r : NodeRow => (r.key, r.value)) ∘ fun kv : String × JSON =>
          ({ key := some kv.1,
             value := kv.2,
             type := inferTypeOf (rows.find? fun row => row.key == some kv.1)
               kv.2 } : NodeRow)) ∘
        fun r : NodeRow => (r.key.getD "", r.value)) r =
      (fun r : NodeRow => (r.key, r.value)) r := by
    intro r hr
    have hk := hkeyed r hr
    cases hrk : r.key with
    | none => rw [hrk] at hk; simp [keyTruthy] at hk
    | some k => simp [Function.comp, hrk]
  rw [List.map_congr_left hpt]

theorem spec_C5_witness :
    (∀ r ∈ [({ key := some "a", value := JSON.num 1, type := "number" } : NodeRow),
        { key := some "b", value := JSON.str "x", type := "string" }],
      keyTruthy r.key = true) ∧
    (∀ r ∈ [({ key := some "a", value := JSON.num 1, type := "number" } : NodeRow),
        { key := some "b", value := JSON.str "x", type := "string" }],
      r.type ≠ "array" ∧ r.type ≠ "object") ∧
    jsonParse (normalizeNodeData
        [{ key := some "a", value := JSON.num 1, type := "number" },
         { key := some "b", value := JSON.str "x", type := "string" }]) =
      some (JSON.obj (buildNormObj .nil
        [{ key := some "a", value := JSON.num 1, type := "number" },
         { key := some "b", value := JSON.str "x", type := "string" }])) ∧
    (∃ rows2, parseEditedContent
        (normalizeNodeData
          [{ key := some "a", value := JSON.num 1, type := "number" },
           { key := some "b", value := JSON.str "x", type := "string" }])
        [{ key := some "a", value := JSON.num 1, type := "number" },
         { key := some "b", value := JSON.str "x", type := "string" }] = .ok rows2 ∧
      (rows2.map fun r => (r.key, r.value)).Perm
        ([{ key := some "a", value := JSON.num 1, type := "number" },
          { key := some "b", value := JSON.str "x", type := "string" }].map
          fun r : NodeRow => (r.key, r.value))) := by
  refine ⟨?_, ?_, by decide, spec_C5_amended _ ?_ ?_ (by decide) (by decide)⟩
  · intro r hr
    fin_cases hr <;> decide
  · intro r hr
    fin_cases hr <;> exact ⟨by decide, by decide⟩
  · intro r hr
    fin_cases hr <;> decide
  · intro r hr
    fin_cases hr <;> exact ⟨by decide, by decide⟩
